import Mathlib

/-!
Verification of the guillotine-mini REVM adapter (guillotine-rs).

This file gives a shallow embedding of the adapter's core modules
(`types.rs`, `database_bridge.rs`, `evm.rs` transact, `config.rs`
handle lifecycle) and proves the specification claims about them.

Modelling conventions:
* machine bytes / 20-byte addresses / 256-bit words are naturals
  (bounds are stated explicitly where they matter);
* the external engine is a black box: an `Engine` record of oracles fixes
  the answer of every FFI call, and adapter functions additionally return
  a trace of the boundary calls they perform;
* the ledger (REVM `Database`) is a record of fallible lookup functions;
* Rust panics (slice-index out of bounds) are modelled with `Option`:
  a `none` at the top level of `transact` is an aborted run.
-/

namespace GuillotineRs

abbrev Addr := Nat
abbrev U256 := Nat

/-! ## types.rs -/

/-- Big-endian byte list of a natural, fixed width `w` (most significant first).
This is the byte layout `to_be_bytes` produces for `U256` (w = 32) and the raw
byte view of a 20-byte `Address` (w = 20). -/
def beBytes (w : Nat) (v : Nat) : List Nat :=
  (List.range w).map (fun i => v / 256 ^ (w - 1 - i) % 256)

/-- Natural denoted by a big-endian byte list (`from_be_bytes` / `Address::from`). -/
def fromBeBytes (bs : List Nat) : Nat :=
  bs.foldl (fun acc b => acc * 256 + b) 0

/-- types.rs `address_to_bytes`: the 20 raw bytes of an address. -/
def address_to_bytes (a : Addr) : List Nat := beBytes 20 a

/-- types.rs `address_from_bytes`. -/
def address_from_bytes (bs : List Nat) : Addr := fromBeBytes bs

/-- types.rs `u256_to_be_bytes`: 32-byte big-endian encoding. -/
def u256_to_be_bytes (v : U256) : List Nat := beBytes 32 v

/-- types.rs `u256_from_be_bytes`. -/
def u256_from_be_bytes (bs : List Nat) : U256 := fromBeBytes bs

/-- types.rs `i64_to_u64_gas`: `gas.max(0) as u64`. -/
def i64_to_u64_gas (gas : Int) : Nat := (max gas 0).toNat

lemma beBytes_succ (w v : Nat) :
    beBytes (w + 1) v = v / 256 ^ w % 256 :: beBytes w v := by
  unfold beBytes
  rw [List.range_succ_eq_map]
  simp only [List.map_cons, List.map_map]
  congr 1
  apply List.map_congr_left
  intro i _
  simp only [Function.comp_apply]
  have he : w + 1 - 1 - Nat.succ i = w - 1 - i := by omega
  rw [he]

lemma foldl_beBytes (w : Nat) (v a : Nat) :
    (beBytes w v).foldl (fun acc b => acc * 256 + b) a = a * 256 ^ w + v % 256 ^ w := by
  induction w generalizing a with
  | zero => simp [beBytes, Nat.mod_one]
  | succ w ih =>
      rw [beBytes_succ]
      simp only [List.foldl_cons]
      rw [ih, pow_succ, Nat.mod_mul]
      ring

lemma fromBeBytes_beBytes (w v : Nat) (h : v < 256 ^ w) :
    fromBeBytes (beBytes w v) = v := by
  unfold fromBeBytes
  rw [foldl_beBytes]
  simp [Nat.mod_eq_of_lt h]

/-! ## Hardfork name mapping (evm.rs `new` / `try_new`) -/

/-- REVM `SpecId` version tags, as matched by the adapter. The upstream
enumeration is non-exhaustive; `UNLISTED` stands for any tag the adapter's
match does not name explicitly (a tag newer than the engine understands),
which the source's wildcard arm catches. -/
inductive SpecId
  | FRONTIER
  | FRONTIER_THAWING
  | HOMESTEAD
  | DAO_FORK
  | TANGERINE
  | SPURIOUS_DRAGON
  | BYZANTIUM
  | CONSTANTINOPLE
  | PETERSBURG
  | ISTANBUL
  | MUIR_GLACIER
  | BERLIN
  | LONDON
  | ARROW_GLACIER
  | GRAY_GLACIER
  | MERGE
  | SHANGHAI
  | CANCUN
  | PRAGUE
  | OSAKA
  | UNLISTED
  deriving DecidableEq

/-- The hardfork wire string computed inside `GuillotineMiniEvm::new`
(evm.rs lines 127-143). -/
def hardfork_name_new : SpecId → String
  | .FRONTIER | .FRONTIER_THAWING => "Frontier"
  | .HOMESTEAD | .DAO_FORK => "Homestead"
  | .TANGERINE => "Tangerine"
  | .SPURIOUS_DRAGON => "Spurious"
  | .BYZANTIUM => "Byzantium"
  | .CONSTANTINOPLE | .PETERSBURG => "Constantinople"
  | .ISTANBUL | .MUIR_GLACIER => "Istanbul"
  | .BERLIN => "Berlin"
  | .LONDON | .ARROW_GLACIER | .GRAY_GLACIER => "London"
  | .MERGE => "Merge"
  | .SHANGHAI => "Shanghai"
  | .CANCUN => "Cancun"
  | .PRAGUE => "Prague"
  | .OSAKA => "Osaka"
  | _ => "Cancun"

/-- The hardfork wire string computed inside `GuillotineMiniEvm::try_new`
(evm.rs lines 164-180). -/
def hardfork_name_try_new : SpecId → String
  | .FRONTIER | .FRONTIER_THAWING => "Frontier"
  | .HOMESTEAD | .DAO_FORK => "Homestead"
  | .TANGERINE => "Tangerine"
  | .SPURIOUS_DRAGON => "Spurious"
  | .BYZANTIUM => "Byzantium"
  | .CONSTANTINOPLE | .PETERSBURG => "Constantinople"
  | .ISTANBUL | .MUIR_GLACIER => "Istanbul"
  | .BERLIN => "Berlin"
  | .LONDON | .ARROW_GLACIER | .GRAY_GLACIER => "London"
  | .MERGE => "Merge"
  | .SHANGHAI => "Shanghai"
  | .CANCUN => "Cancun"
  | .PRAGUE => "Prague"
  | .OSAKA => "Osaka"
  | _ => "Cancun"

/-! ## Ledger, engine oracle and boundary-call traces -/

/-- REVM `AccountInfo` as consumed by the bridge: balance, nonce, optional code. -/
structure AccountInfo where
  balance : U256
  nonce : Nat
  code : Option (List Nat)
  deriving DecidableEq

/-- The ledger (REVM `Database`): fallible basic-info and storage lookups with a
caller-defined error type `E`. -/
structure DB (E : Type) where
  basic : Addr → Except E (Option AccountInfo)
  storage : Addr → U256 → Except E U256

/-- error.rs `EvmAdapterError`. -/
inductive EvmAdapterError (E : Type) where
  | Db (e : E)
  | Ffi (name : String)
  deriving DecidableEq

/-- One call across the foreign boundary or into the ledger, as recorded in the
trace an adapter operation produces. Engine getter calls after `execute` are
pure reads of the oracle and are not traced. -/
inductive Event where
  | dbBasic (a : Addr)
  | dbStorage (a : Addr) (slot : U256)
  | setBalance (a : Addr) (v : U256)
  | setNonce (a : Addr) (n : Nat)
  | setCode (a : Addr) (code : List Nat)
  | setStorage (a : Addr) (slot : U256) (v : U256)
  | setBytecode (code : List Nat)
  | setExecutionContext (gasLimit : Nat) (caller : Addr) (target : Addr)
      (value : U256) (calldata : List Nat)
  | setBlockchainContext
  | execute
  deriving DecidableEq

/-- Raw bytes the engine reports for one log entry (`evm_get_log`
out-parameters, before the adapter decodes them). -/
structure RawLog where
  addrBytes : List Nat
  topicsCount : Nat
  topicsBuf : List Nat
  dataLen : Nat
  dataBuf : List Nat

/-- Raw bytes the engine reports for one storage-change entry
(`evm_get_storage_change` out-parameters). -/
structure RawChange where
  addrBytes : List Nat
  slotBytes : List Nat
  valueBytes : List Nat

/-- The engine black box: one oracle per FFI entry point fixing the boolean
result of each setter and the data every getter reports.  `get_log i = none`
(resp. `get_change i = none`) models the call returning false at index `i`. -/
structure Engine where
  set_balance_ok : Addr → U256 → Bool
  set_nonce_ok : Addr → Nat → Bool
  set_code_ok : Addr → List Nat → Bool
  set_storage_ok : Addr → U256 → U256 → Bool
  set_bytecode_ok : List Nat → Bool
  set_context_ok : Bool
  execute_ok : Bool
  gas_used : Int
  is_success : Bool
  output : List Nat
  gas_refund : Nat
  log_count : Nat
  get_log : Nat → Option RawLog
  change_count : Nat
  get_change : Nat → Option RawChange

/-! ## database_bridge.rs -/

/-- database_bridge.rs `sync_account_to_ffi`: read (balance, nonce, code) from
the ledger once; absent account is a no-op; otherwise one setter call per
present field, stopping at the first setter that signals failure.  Returns the
adapter result together with the trace of boundary calls made. -/
def sync_account_to_ffi {E : Type} (eng : Engine) (db : DB E) (handleNull : Bool)
    (address : Addr) : Except (EvmAdapterError E) Unit × List Event :=
  if handleNull then (.error (.Ffi "null handle"), [])
  else
    match db.basic address with
    | .error e => (.error (.Db e), [.dbBasic address])
    | .ok none => (.ok (), [.dbBasic address])
    | .ok (some info) =>
        if !eng.set_balance_ok address info.balance then
          (.error (.Ffi "evm_set_balance"),
            [.dbBasic address, .setBalance address info.balance])
        else if !eng.set_nonce_ok address info.nonce then
          (.error (.Ffi "evm_set_nonce"),
            [.dbBasic address, .setBalance address info.balance,
             .setNonce address info.nonce])
        else
          match info.code with
          | none =>
              (.ok (),
                [.dbBasic address, .setBalance address info.balance,
                 .setNonce address info.nonce])
          | some c =>
              if eng.set_code_ok address c then
                (.ok (),
                  [.dbBasic address, .setBalance address info.balance,
                   .setNonce address info.nonce, .setCode address c])
              else
                (.error (.Ffi "evm_set_code"),
                  [.dbBasic address, .setBalance address info.balance,
                   .setNonce address info.nonce, .setCode address c])

/-- Loop body of database_bridge.rs `sync_storage_slots_to_ffi`: for each slot
in order, read its value from the ledger and push the (address, slot, value)
triple through `evm_set_storage`, stopping at the first failure.  Besides the
result and the call trace it returns the list of triples actually pushed into
the engine (the engine state added by this call — never rolled back). -/
def syncSlotsGo {E : Type} (eng : Engine) (db : DB E) (address : Addr) :
    List U256 →
    Except (EvmAdapterError E) Unit × List Event × List (Addr × U256 × U256)
  | [] => (.ok (), [], [])
  | slot :: rest =>
      match db.storage address slot with
      | .error e => (.error (.Db e), [.dbStorage address slot], [])
      | .ok v =>
          if eng.set_storage_ok address slot v then
            let r := syncSlotsGo eng db address rest
            (r.1, .dbStorage address slot :: .setStorage address slot v :: r.2.1,
              (address, slot, v) :: r.2.2)
          else
            (.error (.Ffi "evm_set_storage"),
              [.dbStorage address slot, .setStorage address slot v], [])

/-- database_bridge.rs `sync_storage_slots_to_ffi`. -/
def sync_storage_slots_to_ffi {E : Type} (eng : Engine) (db : DB E)
    (handleNull : Bool) (address : Addr) (slots : List U256) :
    Except (EvmAdapterError E) Unit × List Event × List (Addr × U256 × U256) :=
  if handleNull then (.error (.Ffi "null handle"), [], [])
  else syncSlotsGo eng db address slots

/-! ## Result extraction (evm.rs, transact lines 346-473) -/

/-- Contents of a caller-allocated byte buffer of capacity `n` after the engine
wrote into it: the engine's bytes fill a prefix, the zero-initialised remainder
is untouched.  Always has length `n`, like the Rust array/`vec` it models. -/
def bufferize (n : Nat) (written : List Nat) : List Nat :=
  written.take n ++ List.replicate (n - written.length) 0

/-- A Rust slice-index read `buf[start..start+len]`: `none` models the
out-of-bounds panic. -/
def copySlice (buf : List Nat) (start len : Nat) : Option (List Nat) :=
  if start + len ≤ buf.length then some ((buf.drop start).take len) else none

/-- REVM `Log`: emitting address, topics (32-byte words), data bytes. -/
structure Log where
  address : Addr
  topics : List (List Nat)
  data : List Nat
  deriving DecidableEq

/-- A for-loop collecting one `Option` result per element, aborting at the
first `none` (a panicking iteration stops the whole run). -/
def optTraverse {α β : Type} (f : α → Option β) : List α → Option (List β)
  | [] => some []
  | x :: xs =>
      match f x with
      | none => none
      | some b => (optTraverse f xs).map (b :: ·)

/-- Decoding of one reported log (evm.rs lines 384-397): topics are copied out
of the 128-byte topic buffer in 32-byte steps — `none` is the slice-index panic
when the reported topic count exceeds the buffer — and the 4096-byte data
buffer is truncated to the reported length (`Vec::truncate`, a no-op when the
reported length exceeds 4096). -/
def decodeLog (raw : RawLog) : Option Log :=
  match optTraverse
      (fun t => copySlice (bufferize 128 raw.topicsBuf) (t * 32) 32)
      (List.range raw.topicsCount) with
  | none => none
  | some topics =>
      some { address := address_from_bytes (bufferize 20 raw.addrBytes)
             topics := topics
             data := (bufferize 4096 raw.dataBuf).take raw.dataLen }

/-- Log enumeration loop (evm.rs lines 362-398): an index where `evm_get_log`
returns false is skipped; a decode panic aborts the run (`none`). -/
def extractLogsGo (eng : Engine) : List Nat → Option (List Log)
  | [] => some []
  | i :: rest =>
      match eng.get_log i with
      | none => extractLogsGo eng rest
      | some raw =>
          match decodeLog raw with
          | none => none
          | some l => (extractLogsGo eng rest).map (l :: ·)

/-- All logs of the run, in index order. -/
def extractLogs (eng : Engine) : Option (List Log) :=
  extractLogsGo eng (List.range eng.log_count)

/-- Storage-change enumeration (evm.rs lines 422-447): indices where
`evm_get_storage_change` returns false are skipped, the rest are decoded from
their fixed-width byte buffers. -/
def extractChanges (eng : Engine) : List (Addr × U256 × U256) :=
  (List.range eng.change_count).filterMap fun i =>
    (eng.get_change i).map fun raw =>
      (address_from_bytes (bufferize 20 raw.addrBytes),
       u256_from_be_bytes (bufferize 32 raw.slotBytes),
       u256_from_be_bytes (bufferize 32 raw.valueBytes))

/-- Association-list insert with overwrite — the `HashMap::insert` /
`entry().or_insert_with` semantics used to group storage changes. -/
def alInsert {β : Type} (l : List (Nat × β)) (k : Nat) (f : Option β → β) :
    List (Nat × β) :=
  match l with
  | [] => [(k, f none)]
  | (k', v') :: rest =>
      if k = k' then (k, f (some v')) :: rest else (k', v') :: alInsert rest k f

/-- `changes_by_address` (evm.rs lines 423-447): group the change triples by
address; within an address a later write to the same slot overwrites. -/
def groupChanges (cs : List (Addr × U256 × U256)) : List (Addr × List (U256 × U256)) :=
  cs.foldl
    (fun m c =>
      alInsert m c.1 (fun slots => alInsert (slots.getD []) c.2.1 (fun _ => c.2.2)))
    []

/-- REVM `AccountStatus` values the adapter produces. -/
inductive AccountStatus where
  | Touched
  | Loaded
  deriving DecidableEq

/-- REVM `EvmStorageSlot` as filled in by the adapter (evm.rs lines 459-467). -/
structure EvmStorageSlot where
  original_value : U256
  present_value : U256
  is_cold : Bool
  deriving DecidableEq

/-- REVM `Account` as built by the adapter (evm.rs lines 451-456). -/
structure Account where
  info : AccountInfo
  storage : List (U256 × EvmStorageSlot)
  status : AccountStatus
  deriving DecidableEq

/-- Account-state assembly (evm.rs lines 449-471): one `Touched` account per
address with a storage-change group, default info, each changed slot carried
with original value zero. -/
def buildState (cs : List (Addr × U256 × U256)) : List (Addr × Account) :=
  (groupChanges cs).map fun g =>
    (g.1,
     { info := { balance := 0, nonce := 0, code := none }
       storage := g.2.map fun s =>
         (s.1, { original_value := 0, present_value := s.2, is_cold := false })
       status := .Touched })

/-! ## Transaction execution driver (evm.rs `transact`) -/

/-- REVM `TxKind`. -/
inductive TxKind where
  | Call (addr : Addr)
  | Create
  deriving DecidableEq

/-- The fields of REVM `TxEnv` the adapter reads. -/
structure TxEnv where
  caller : Addr
  kind : TxKind
  value : U256
  data : List Nat
  gas_limit : Nat

/-- REVM `SuccessReason`. -/
inductive SuccessReason where
  | Stop
  | Return
  | SelfDestruct
  deriving DecidableEq

/-- REVM `Output`. -/
inductive Output where
  | Call (bytes : List Nat)
  | Create (bytes : List Nat) (addr : Option Addr)
  deriving DecidableEq

/-- REVM `ExecutionResult` (the variants the adapter produces or could). -/
inductive ExecutionResult where
  | Success (reason : SuccessReason) (gas_used : Nat) (gas_refunded : Nat)
      (logs : List Log) (output : Output)
  | Revert (gas_used : Nat) (output : List Nat)
  deriving DecidableEq

/-- REVM `ResultAndState`. -/
structure ResultAndState where
  result : ExecutionResult
  state : List (Addr × Account)
  deriving DecidableEq

/-- Target resolution (evm.rs lines 224-243): a call fetches the callee's code
from the ledger (empty when absent); a create uses the all-zero address as the
target and the transaction data as the code, with no ledger read. -/
def resolveTarget {E : Type} (db : DB E) (tx : TxEnv) :
    Except (EvmAdapterError E) (Addr × List Nat) × List Event :=
  match tx.kind with
  | .Call addr =>
      match db.basic addr with
      | .error e => (.error (.Db e), [.dbBasic addr])
      | .ok acc =>
          (.ok (addr, ((acc.bind (·.code)).getD [])), [.dbBasic addr])
  | .Create => (.ok (0, tx.data), [])

/-- The fixed heuristic pre-sync window (evm.rs lines 262-273): slots 0-9. -/
def commonSlots : List U256 := [0, 1, 2, 3, 4, 5, 6, 7, 8, 9]

/-- evm.rs `transact` (lines 222-474): resolve target and code, sync caller and
target accounts, pre-sync the slot window, push bytecode / execution context /
blockchain context, execute, then extract gas, output, logs and storage
changes into a REVM `ResultAndState`.  The handle is non-null by construction
(`new` / `try_new` refuse a null handle), so the bridge calls receive `false`.
A `none` result is the log-decode panic aborting the run. -/
def transact {E : Type} (eng : Engine) (db : DB E) (tx : TxEnv) :
    Option (Except (EvmAdapterError E) ResultAndState × List Event) :=
  match resolveTarget db tx with
  | (.error e, t1) => some (.error e, t1)
  | (.ok (target, bytecode), t1) =>
    match sync_account_to_ffi eng db false tx.caller with
    | (.error e, t2) => some (.error e, t1 ++ t2)
    | (.ok (), t2) =>
      match sync_account_to_ffi eng db false target with
      | (.error e, t3) => some (.error e, t1 ++ t2 ++ t3)
      | (.ok (), t3) =>
        match sync_storage_slots_to_ffi eng db false target commonSlots with
        | (.error e, t4, _) => some (.error e, t1 ++ t2 ++ t3 ++ t4)
        | (.ok (), t4, _) =>
          if !eng.set_bytecode_ok bytecode then
            some (.error (.Ffi "evm_set_bytecode"),
              t1 ++ t2 ++ t3 ++ t4 ++ [.setBytecode bytecode])
          else if !eng.set_context_ok then
            some (.error (.Ffi "evm_set_execution_context"),
              t1 ++ t2 ++ t3 ++ t4 ++ [.setBytecode bytecode,
                .setExecutionContext tx.gas_limit tx.caller target tx.value tx.data])
          else if !eng.execute_ok then
            some (.error (.Ffi "evm_execute failed - execution did not complete"),
              t1 ++ t2 ++ t3 ++ t4 ++ [.setBytecode bytecode,
                .setExecutionContext tx.gas_limit tx.caller target tx.value tx.data,
                .setBlockchainContext, .execute])
          else
            match extractLogs eng with
            | none => none
            | some logs =>
                some (.ok
                  { result :=
                      if eng.is_success then
                        ExecutionResult.Success .Return (i64_to_u64_gas eng.gas_used)
                          eng.gas_refund logs (.Call eng.output)
                      else
                        ExecutionResult.Revert (i64_to_u64_gas eng.gas_used) eng.output
                    state := buildState (extractChanges eng) },
                  t1 ++ t2 ++ t3 ++ t4 ++ [.setBytecode bytecode,
                    .setExecutionContext tx.gas_limit tx.caller target tx.value tx.data,
                    .setBlockchainContext, .execute])

/-! ## Helper notions used by the statements -/

/-- The value a successful ledger storage read yields (placeholder zero when
the read errors; only used where the read is known to succeed). -/
def dbVal {E : Type} (db : DB E) (a : Addr) (slot : U256) : U256 :=
  match db.storage a slot with
  | .ok v => v
  | .error _ => 0

/-- Events that touch storage: a ledger storage read or an engine
storage-setter call. -/
def isStorageEvent : Event → Bool
  | .dbStorage _ _ => true
  | .setStorage _ _ _ => true
  | _ => false

/-- The gas-used field carried by either outcome variant. -/
def resultGasUsed : ExecutionResult → Nat
  | .Success _ g _ _ _ => g
  | .Revert g _ => g

/-- One iteration of the slot-sync loop succeeds: the ledger read returns a
value and the engine accepts the push. -/
def slotStepOk {E : Type} (eng : Engine) (db : DB E) (a : Addr) (slot : U256) : Prop :=
  ∃ v, db.storage a slot = .ok v ∧ eng.set_storage_ok a slot v = true

/-- The pair of boundary calls one successfully synced slot contributes. -/
def slotEvents {E : Type} (db : DB E) (a : Addr) (slot : U256) : List Event :=
  [.dbStorage a slot, .setStorage a slot (dbVal db a slot)]

lemma syncSlotsGo_ok {E : Type} (eng : Engine) (db : DB E) (a : Addr)
    (slots : List U256) (h : ∀ s ∈ slots, slotStepOk eng db a s) :
    syncSlotsGo eng db a slots =
      (.ok (), slots.flatMap (slotEvents db a),
        slots.map fun s => (a, s, dbVal db a s)) := by
  induction slots with
  | nil => rfl
  | cons s rest ih =>
      obtain ⟨v, hv, hset⟩ := h s (by simp)
      have hrest := ih (fun x hx => h x (by simp [hx]))
      simp only [syncSlotsGo, hv, hset, hrest, if_true]
      simp [slotEvents, dbVal, hv]

lemma syncSlotsGo_ok_of_result {E : Type} (eng : Engine) (db : DB E) (a : Addr)
    (slots : List U256) (h : (syncSlotsGo eng db a slots).1 = .ok ()) :
    ∀ s ∈ slots, slotStepOk eng db a s := by
  induction slots with
  | nil => simp
  | cons s rest ih =>
      intro x hx
      unfold syncSlotsGo at h
      rcases hv : db.storage a s with e | v <;> simp only [hv] at h
      · exact absurd h (by simp)
      · by_cases hset : eng.set_storage_ok a s v = true
        · simp only [hset, if_true] at h
          rcases List.mem_cons.mp hx with rfl | hx
          · exact ⟨v, hv, hset⟩
          · exact ih h x hx
        · rw [if_neg hset] at h
          exact absurd h (by simp)

lemma sync_account_execute_not_mem {E : Type} (eng : Engine) (db : DB E)
    (hn : Bool) (a : Addr) :
    Event.execute ∉ (sync_account_to_ffi eng db hn a).2 := by
  unfold sync_account_to_ffi
  repeat' split
  all_goals simp

lemma sync_account_storage_filter {E : Type} (eng : Engine) (db : DB E)
    (hn : Bool) (a : Addr) :
    ((sync_account_to_ffi eng db hn a).2).filter isStorageEvent = [] := by
  unfold sync_account_to_ffi
  repeat' split
  all_goals simp [isStorageEvent]

lemma sync_account_dbBasic_mem {E : Type} (eng : Engine) (db : DB E) (a : Addr) :
    Event.dbBasic a ∈ (sync_account_to_ffi eng db false a).2 := by
  unfold sync_account_to_ffi
  repeat' split
  all_goals simp_all

lemma resolveTarget_execute_not_mem {E : Type} (db : DB E) (tx : TxEnv) :
    Event.execute ∉ (resolveTarget db tx).2 := by
  unfold resolveTarget
  repeat' split
  all_goals simp

lemma resolveTarget_storage_filter {E : Type} (db : DB E) (tx : TxEnv) :
    ((resolveTarget db tx).2).filter isStorageEvent = [] := by
  unfold resolveTarget
  repeat' split
  all_goals simp [isStorageEvent]

lemma syncSlotsGo_execute_not_mem {E : Type} (eng : Engine) (db : DB E)
    (a : Addr) (slots : List U256) :
    Event.execute ∉ (syncSlotsGo eng db a slots).2.1 := by
  induction slots with
  | nil => simp [syncSlotsGo]
  | cons s rest ih =>
      unfold syncSlotsGo
      repeat' split
      all_goals simp_all

lemma slotEvents_filter {E : Type} (db : DB E) (a : Addr) (slots : List U256) :
    (slots.flatMap (slotEvents db a)).filter isStorageEvent =
      slots.flatMap (slotEvents db a) := by
  induction slots with
  | nil => simp
  | cons s rest ih => simp [slotEvents, isStorageEvent, ih]

lemma transact_ok_inv {E : Type} {eng : Engine} {db : DB E} {tx : TxEnv}
    {r : ResultAndState} {tr : List Event}
    (h : transact eng db tx = some (.ok r, tr)) :
    ∃ target bytecode logs t1 t2 t3 t4 pushes,
      resolveTarget db tx = (.ok (target, bytecode), t1) ∧
      sync_account_to_ffi eng db false tx.caller = (.ok (), t2) ∧
      sync_account_to_ffi eng db false target = (.ok (), t3) ∧
      sync_storage_slots_to_ffi eng db false target commonSlots =
        (.ok (), t4, pushes) ∧
      eng.set_bytecode_ok bytecode = true ∧
      eng.set_context_ok = true ∧
      eng.execute_ok = true ∧
      extractLogs eng = some logs ∧
      r = { result :=
              if eng.is_success then
                ExecutionResult.Success .Return (i64_to_u64_gas eng.gas_used)
                  eng.gas_refund logs (.Call eng.output)
              else ExecutionResult.Revert (i64_to_u64_gas eng.gas_used) eng.output
            state := buildState (extractChanges eng) } ∧
      tr = t1 ++ t2 ++ t3 ++ t4 ++
        [.setBytecode bytecode,
         .setExecutionContext tx.gas_limit tx.caller target tx.value tx.data,
         .setBlockchainContext, .execute] := by
  unfold transact at h
  split at h
  · simp at h
  · rename_i target bytecode t1 heq1
    split at h
    · simp at h
    · rename_i t2 heq2
      split at h
      · simp at h
      · rename_i t3 heq3
        split at h
        · simp at h
        · rename_i t4 pushes heq4
          split at h
          · simp at h
          · rename_i hb
            split at h
            · simp at h
            · rename_i hc
              split at h
              · simp at h
              · rename_i hx
                split at h
                · exact absurd h (by simp)
                · rename_i logs hlogs
                  simp only [Bool.not_eq_true, Bool.not_eq_eq_eq_not,
                    Bool.not_true, Bool.not_eq_false] at hb hc hx
                  simp only [Option.some.injEq, Prod.mk.injEq,
                    Except.ok.injEq] at h
                  exact ⟨target, bytecode, logs, t1, t2, t3, t4, pushes,
                    heq1, heq2, heq3, heq4, hb, hc, hx, hlogs,
                    h.1.symm, h.2.symm⟩

lemma syncSlotsGo_fail {E : Type} (eng : Engine) (db : DB E) (a : Addr) :
    ∀ (slots : List U256) (i : Nat) (hi : i < slots.length),
      (∀ s ∈ slots.take i, slotStepOk eng db a s) →
      ¬ slotStepOk eng db a slots[i] →
      (∃ e, db.storage a slots[i] = .error e ∧
        syncSlotsGo eng db a slots =
          (.error (.Db e),
           (slots.take i).flatMap (slotEvents db a) ++ [.dbStorage a slots[i]],
           (slots.take i).map fun s => (a, s, dbVal db a s))) ∨
      (∃ v, db.storage a slots[i] = .ok v ∧
        eng.set_storage_ok a slots[i] v = false ∧
        syncSlotsGo eng db a slots =
          (.error (.Ffi "evm_set_storage"),
           (slots.take i).flatMap (slotEvents db a) ++
             [.dbStorage a slots[i], .setStorage a slots[i] v],
           (slots.take i).map fun s => (a, s, dbVal db a s))) := by
  intro slots
  induction slots with
  | nil => intro i hi; simp at hi
  | cons s rest ih =>
      intro i hi hpre hfail
      cases i with
      | zero =>
          simp only [List.getElem_cons_zero] at hfail ⊢
          rcases hv : db.storage a s with e | v
          · left
            exact ⟨e, rfl, by simp [syncSlotsGo, hv]⟩
          · have hset : eng.set_storage_ok a s v = false := by
              cases hs : eng.set_storage_ok a s v
              · rfl
              · exact absurd ⟨v, hv, hs⟩ hfail
            right
            exact ⟨v, rfl, hset, by simp [syncSlotsGo, hv, hset]⟩
      | succ j =>
          have hj : j < rest.length := by
            simp only [List.length_cons] at hi
            omega
          obtain ⟨v, hv, hset⟩ := hpre s (by simp)
          have hpre2 : ∀ x ∈ rest.take j, slotStepOk eng db a x := by
            intro x hx
            exact hpre x (by simp [List.take_succ_cons, hx])
          have hfail2 : ¬ slotStepOk eng db a rest[j] := by
            simpa only [List.getElem_cons_succ] using hfail
          have hdv : dbVal db a s = v := by simp [dbVal, hv]
          rcases ih j hj hpre2 hfail2 with ⟨e, he, hgo⟩ | ⟨v2, hv2, hset2, hgo⟩
          · left
            refine ⟨e, by simpa only [List.getElem_cons_succ] using he, ?_⟩
            simp only [syncSlotsGo, hv, hset, if_true, hgo, List.getElem_cons_succ,
              List.take_succ_cons, List.flatMap_cons, List.map_cons, hdv]
            simp [slotEvents, dbVal, hv]
          · right
            refine ⟨v2, by simpa only [List.getElem_cons_succ] using hv2,
              by simpa only [List.getElem_cons_succ] using hset2, ?_⟩
            simp only [syncSlotsGo, hv, hset, if_true, hgo, List.getElem_cons_succ,
              List.take_succ_cons, List.flatMap_cons, List.map_cons, hdv]
            simp [slotEvents, dbVal, hv]

lemma bufferize_length (n : Nat) (w : List Nat) : (bufferize n w).length = n := by
  simp [bufferize]
  omega

lemma optTraverse_eq_none_iff {α β : Type} (f : α → Option β) (l : List α) :
    optTraverse f l = none ↔ ∃ x ∈ l, f x = none := by
  induction l with
  | nil => simp [optTraverse]
  | cons x xs ih =>
      unfold optTraverse
      rcases hx : f x with _ | b
      · simp [hx]
      · simp [hx, Option.map_eq_none, ih]

lemma copySlice_topics_none_iff (buf : List Nat) (hb : buf.length = 128) (t : Nat) :
    copySlice buf (t * 32) 32 = none ↔ 4 ≤ t := by
  simp only [copySlice, hb]
  constructor
  · intro h
    by_contra hc
    rw [if_pos (by omega)] at h
    exact absurd h (by simp)
  · intro h
    rw [if_neg (by omega)]

lemma extractLogsGo_mem {eng : Engine} {idxs : List Nat} {logs : List Log}
    (h : extractLogsGo eng idxs = some logs) :
    ∀ l ∈ logs, ∃ raw, decodeLog raw = some l := by
  induction idxs generalizing logs with
  | nil =>
      simp only [extractLogsGo, Option.some.injEq] at h
      subst h
      simp
  | cons i rest ih =>
      unfold extractLogsGo at h
      rcases hg : eng.get_log i with _ | raw <;> simp only [hg] at h
      · exact ih h
      · rcases hd : decodeLog raw with _ | l0 <;> simp only [hd] at h
        · simp at h
        · rcases hrest : extractLogsGo eng rest with _ | ls <;> simp only [hrest] at h
          · simp at h
          · simp only [Option.map_some', Option.some.injEq] at h
            subst h
            intro l hl
            rcases List.mem_cons.mp hl with rfl | hl
            · exact ⟨raw, hd⟩
            · exact ih hrest l hl

lemma buildState_status (cs : List (Addr × U256 × U256)) :
    ∀ p ∈ buildState cs, p.2.status = AccountStatus.Touched := by
  intro p hp
  simp only [buildState, List.mem_map] at hp
  obtain ⟨g, _, rfl⟩ := hp
  rfl

/-! ## Configuration-handle lifecycle (config.rs) -/

/-- Custody state of one configuration handle: whether the builder / the built
configuration value is still live (not yet consumed or dropped), whether each
still holds a non-null internal reference to the handle, and how many
`evm_config_destroy` calls have been made on the handle so far. -/
structure ConfigLife where
  builderAlive : Bool
  builderHolds : Bool
  configAlive : Bool
  configHolds : Bool
  destroys : Nat
  deriving DecidableEq

/-- State right after `EvmConfigBuilder::new` succeeds (non-null handle
asserted). -/
def initialLife : ConfigLife :=
  { builderAlive := true, builderHolds := true,
    configAlive := false, configHolds := false, destroys := 0 }

/-- Handle-custody operations of config.rs.
`build` (lines 381-390) nulls the builder's reference *before* the builder's
own destructor runs on the consumed value, so that destructor frees nothing,
and the built configuration takes over the reference.  `dropBuilder` /
`dropConfig` (lines 393-401, 427-435) destroy the handle only when the
reference is still non-null.  `intoRaw` (lines 419-424) nulls the
configuration's reference and forgets the value, handing the raw handle to the
engine. -/
inductive LifeStep : ConfigLife → ConfigLife → Prop
  | build (s : ConfigLife) (h : s.builderAlive = true) :
      LifeStep s
        { builderAlive := false, builderHolds := false,
          configAlive := true, configHolds := s.builderHolds,
          destroys := s.destroys }
  | dropBuilder (s : ConfigLife) (h : s.builderAlive = true) :
      LifeStep s
        { s with
          builderAlive := false
          builderHolds := false
          destroys := s.destroys + (if s.builderHolds then 1 else 0) }
  | intoRaw (s : ConfigLife) (h : s.configAlive = true) :
      LifeStep s { s with configAlive := false, configHolds := false }
  | dropConfig (s : ConfigLife) (h : s.configAlive = true) :
      LifeStep s
        { s with
          configAlive := false
          configHolds := false
          destroys := s.destroys + (if s.configHolds then 1 else 0) }

/-- States reachable from a freshly created builder. -/
inductive LifeReachable : ConfigLife → Prop
  | init : LifeReachable initialLife
  | step {s t : ConfigLife} (hs : LifeReachable s) (hst : LifeStep s t) :
      LifeReachable t

/-- Number of owners currently holding a non-null reference to the handle. -/
def owners (s : ConfigLife) : Nat :=
  (if s.builderHolds then 1 else 0) + (if s.configHolds then 1 else 0)

lemma life_invariant {s : ConfigLife} (h : LifeReachable s) :
    s.destroys + owners s ≤ 1 := by
  induction h with
  | init => simp [initialLife, owners]
  | step hs hst ih =>
      cases hst with
      | build h => simp [owners] at ih ⊢; split_ifs at ih ⊢ <;> omega
      | dropBuilder h => simp [owners] at ih ⊢; split_ifs at ih ⊢ <;> omega
      | intoRaw h => simp [owners] at ih ⊢; split_ifs at ih ⊢ <;> omega
      | dropConfig h => simp [owners] at ih ⊢; split_ifs at ih ⊢ <;> omega

/-! ## Concrete fixtures for witnesses -/

/-- Ledger-read events. -/
def isDbBasic : Event → Bool
  | .dbBasic _ => true
  | _ => false

/-- An engine oracle that accepts every setter, completes execution
successfully with gas_used -5, refund 3 and output [1, 2], and reports no
logs and no storage changes. -/
def engW : Engine :=
  { set_balance_ok := fun _ _ => true
    set_nonce_ok := fun _ _ => true
    set_code_ok := fun _ _ => true
    set_storage_ok := fun _ _ _ => true
    set_bytecode_ok := fun _ => true
    set_context_ok := true
    execute_ok := true
    gas_used := -5
    is_success := true
    output := [1, 2]
    gas_refund := 3
    log_count := 0
    get_log := fun _ => none
    change_count := 0
    get_change := fun _ => none }

/-- A ledger with no accounts and all storage zero, never erring. -/
def dbW : DB Unit :=
  { basic := fun _ => .ok none
    storage := fun _ _ => .ok 0 }

/-- A simple call transaction. -/
def txW : TxEnv :=
  { caller := 1, kind := .Call 2, value := 0, data := [], gas_limit := 100000 }

/-- An engine oracle whose storage setter rejects every slot numbered 2 or
higher (all else as `engW`). -/
def engF : Engine :=
  { engW with set_storage_ok := fun _ slot _ => decide (slot < 2) }

/-- The trace of the successful `transact engW dbW txW` run. -/
def trW : List Event :=
  [.dbBasic 2, .dbBasic 1, .dbBasic 2] ++
  (List.range 10).flatMap (fun s => [.dbStorage 2 s, .setStorage 2 s 0]) ++
  [.setBytecode [], .setExecutionContext 100000 1 2 0 [],
   .setBlockchainContext, .execute]

/-! ## Theorems for the claims -/

/-- C6: for every 256-bit value (zero and the maximum included), decoding after
encoding through the 32-byte big-endian wire format is the identity, and the
20-byte address encode/decode pair is likewise the identity. -/
theorem c6_encode_decode_roundtrip :
    (∀ v : U256, v < 2 ^ 256 → u256_from_be_bytes (u256_to_be_bytes v) = v) ∧
    (∀ a : Addr, a < 2 ^ 160 → address_from_bytes (address_to_bytes a) = a) := by
  constructor
  · intro v hv
    have he : (256 : Nat) ^ 32 = 2 ^ 256 := by norm_num
    exact fromBeBytes_beBytes 32 v (he ▸ hv)
  · intro a ha
    have he : (256 : Nat) ^ 20 = 2 ^ 160 := by norm_num
    exact fromBeBytes_beBytes 20 a (he ▸ ha)

/-- Witness for C6 at the maximum 256-bit value and the maximum address. -/
theorem c6_encode_decode_roundtrip_witness :
    u256_from_be_bytes (u256_to_be_bytes (2 ^ 256 - 1)) = 2 ^ 256 - 1 ∧
    address_from_bytes (address_to_bytes (2 ^ 160 - 1)) = 2 ^ 160 - 1 :=
  ⟨c6_encode_decode_roundtrip.1 _ (Nat.sub_lt (by positivity) Nat.one_pos),
   c6_encode_decode_roundtrip.2 _ (Nat.sub_lt (by positivity) Nat.one_pos)⟩

/-- C7: the hardfork-tag-to-wire-string mapping is total with the explicit
default "Cancun" for any tag not named in the match, and `new` and `try_new`
compute the same wire string on every tag. -/
theorem c7_hardfork_mapping :
    (∀ s : SpecId, hardfork_name_new s = hardfork_name_try_new s) ∧
    hardfork_name_new .UNLISTED = "Cancun" := by
  refine ⟨fun s => ?_, rfl⟩
  cases s <;> rfl

/-- C8: along every reachable sequence of handle-custody operations, the
configuration handle is destroyed at most once — ownership transfers null the
transferring owner's reference before its destructor can run, so no path
reaches two destroy calls. -/
theorem c8_destroy_at_most_once (s : ConfigLife) (h : LifeReachable s) :
    s.destroys ≤ 1 := by
  have := life_invariant h
  omega

/-- Witness for C8: the trace create → build → drop-the-config performs exactly
one destroy. -/
theorem c8_destroy_at_most_once_witness :
    LifeReachable
      { builderAlive := false, builderHolds := false,
        configAlive := false, configHolds := false, destroys := 1 } ∧
    ({ builderAlive := false, builderHolds := false,
       configAlive := false, configHolds := false,
       destroys := 1 } : ConfigLife).destroys ≤ 1 := by
  have h1 : LifeReachable
      { builderAlive := false, builderHolds := false,
        configAlive := true, configHolds := true, destroys := 0 } :=
    LifeReachable.step LifeReachable.init (LifeStep.build initialLife rfl)
  have h2 : LifeReachable
      { builderAlive := false, builderHolds := false,
        configAlive := false, configHolds := false, destroys := 1 } :=
    LifeReachable.step h1 (LifeStep.dropConfig _ rfl)
  exact ⟨h2, c8_destroy_at_most_once _ h2⟩

/-- C2: `sync_account_to_ffi` reads the account's basic info exactly once from
the ledger; if the account is absent it returns Ok without calling any engine
setter; if present it makes one setter call for balance, one for nonce, and
one for code only when code is present; a ledger lookup error is returned as
the ledger's own error, and a failing setter yields an error naming that
setter. -/
theorem c2_sync_account_calls {E : Type} (eng : Engine) (db : DB E) (a : Addr) :
    ((sync_account_to_ffi eng db false a).2).filter isDbBasic = [.dbBasic a] ∧
    (db.basic a = .ok none →
      sync_account_to_ffi eng db false a = (.ok (), [.dbBasic a])) ∧
    (∀ e, db.basic a = .error e →
      sync_account_to_ffi eng db false a = (.error (.Db e), [.dbBasic a])) ∧
    (∀ info, db.basic a = .ok (some info) →
      (eng.set_balance_ok a info.balance = false →
        sync_account_to_ffi eng db false a =
          (.error (.Ffi "evm_set_balance"),
           [.dbBasic a, .setBalance a info.balance])) ∧
      (eng.set_balance_ok a info.balance = true →
        eng.set_nonce_ok a info.nonce = false →
        sync_account_to_ffi eng db false a =
          (.error (.Ffi "evm_set_nonce"),
           [.dbBasic a, .setBalance a info.balance, .setNonce a info.nonce])) ∧
      (eng.set_balance_ok a info.balance = true →
        eng.set_nonce_ok a info.nonce = true →
        info.code = none →
        sync_account_to_ffi eng db false a =
          (.ok (),
           [.dbBasic a, .setBalance a info.balance, .setNonce a info.nonce])) ∧
      (∀ c, eng.set_balance_ok a info.balance = true →
        eng.set_nonce_ok a info.nonce = true →
        info.code = some c →
        sync_account_to_ffi eng db false a =
          (if eng.set_code_ok a c then .ok () else .error (.Ffi "evm_set_code"),
           [.dbBasic a, .setBalance a info.balance, .setNonce a info.nonce,
            .setCode a c]))) := by
  refine ⟨?_, ?_, ?_, ?_⟩
  · unfold sync_account_to_ffi
    repeat' split
    all_goals simp_all [isDbBasic]
  · intro h
    simp [sync_account_to_ffi, h]
  · intro e h
    simp [sync_account_to_ffi, h]
  · intro info h
    refine ⟨?_, ?_, ?_, ?_⟩
    · intro hbal
      simp [sync_account_to_ffi, h, hbal]
    · intro hbal hnon
      simp [sync_account_to_ffi, h, hbal, hnon]
    · intro hbal hnon hcode
      simp [sync_account_to_ffi, h, hbal, hnon, hcode]
    · intro c hbal hnon hcode
      by_cases hc : eng.set_code_ok a c = true <;>
        simp [sync_account_to_ffi, h, hbal, hnon, hcode, hc]

/-- Witness for C2: on an absent account the sync is a pure no-op after one
ledger read. -/
theorem c2_sync_account_calls_witness :
    dbW.basic 5 = .ok none ∧
    sync_account_to_ffi engW dbW false 5 = (.ok (), [.dbBasic 5]) :=
  ⟨rfl, (c2_sync_account_calls engW dbW 5).2.1 rfl⟩

/-- C4: the batch slot sync pushes (address, slot, value) triples in list
order; when every step succeeds it returns Ok having pushed them all, and at
the first ledger-read or setter failure it stops with that error — triples
pushed before the failing index remain pushed (no rollback) and slots after it
are never attempted (the trace and the push list end at the failing slot). -/
theorem c4_batch_sync_first_failure {E : Type} (eng : Engine) (db : DB E)
    (a : Addr) (slots : List U256) :
    ((∀ s ∈ slots, slotStepOk eng db a s) →
      sync_storage_slots_to_ffi eng db false a slots =
        (.ok (), slots.flatMap (slotEvents db a),
         slots.map fun s => (a, s, dbVal db a s))) ∧
    (∀ i, ∀ hi : i < slots.length,
      (∀ s ∈ slots.take i, slotStepOk eng db a s) →
      ¬ slotStepOk eng db a slots[i] →
      (∃ e, db.storage a slots[i] = .error e ∧
        sync_storage_slots_to_ffi eng db false a slots =
          (.error (.Db e),
           (slots.take i).flatMap (slotEvents db a) ++ [.dbStorage a slots[i]],
           (slots.take i).map fun s => (a, s, dbVal db a s))) ∨
      (∃ v, db.storage a slots[i] = .ok v ∧
        eng.set_storage_ok a slots[i] v = false ∧
        sync_storage_slots_to_ffi eng db false a slots =
          (.error (.Ffi "evm_set_storage"),
           (slots.take i).flatMap (slotEvents db a) ++
             [.dbStorage a slots[i], .setStorage a slots[i] v],
           (slots.take i).map fun s => (a, s, dbVal db a s)))) := by
  have hw : sync_storage_slots_to_ffi eng db false a slots =
      syncSlotsGo eng db a slots := rfl
  constructor
  · intro h
    rw [hw]
    exact syncSlotsGo_ok eng db a slots h
  · intro i hi hpre hfail
    rw [hw]
    exact syncSlotsGo_fail eng db a slots i hi hpre hfail

/-- Witness for C4: with a setter refusing slots ≥ 2, the batch [0, 1, 2, 3]
stops at index 2, keeping the two pushed slots and never attempting slot 3. -/
theorem c4_batch_sync_first_failure_witness :
    (∃ e, dbW.storage 7 (([0, 1, 2, 3] : List U256))[2] = .error e ∧
      sync_storage_slots_to_ffi engF dbW false 7 [0, 1, 2, 3] =
        (.error (.Db e),
         (([0, 1, 2, 3] : List U256).take 2).flatMap (slotEvents dbW 7) ++
           [.dbStorage 7 (([0, 1, 2, 3] : List U256))[2]],
         (([0, 1, 2, 3] : List U256).take 2).map fun s => (7, s, dbVal dbW 7 s))) ∨
    (∃ v, dbW.storage 7 (([0, 1, 2, 3] : List U256))[2] = .ok v ∧
      engF.set_storage_ok 7 (([0, 1, 2, 3] : List U256))[2] v = false ∧
      sync_storage_slots_to_ffi engF dbW false 7 [0, 1, 2, 3] =
        (.error (.Ffi "evm_set_storage"),
         (([0, 1, 2, 3] : List U256).take 2).flatMap (slotEvents dbW 7) ++
           [.dbStorage 7 (([0, 1, 2, 3] : List U256))[2],
            .setStorage 7 (([0, 1, 2, 3] : List U256))[2] v],
         (([0, 1, 2, 3] : List U256).take 2).map fun s => (7, s, dbVal dbW 7 s))) := by
  refine (c4_batch_sync_first_failure engF dbW 7 [0, 1, 2, 3]).2 2 (by decide) ?_ ?_
  · intro s hs
    have hs2 : s = 0 ∨ s = 1 := by simpa using hs
    rcases hs2 with rfl | rfl
    · exact ⟨0, rfl, rfl⟩
    · exact ⟨0, rfl, rfl⟩
  · rintro ⟨v, hv, hs⟩
    simp only [dbW] at hv
    have hv2 : v = 0 := by
      cases hv
      rfl
    subst hv2
    simp [engF] at hs

/-- C5: widening the engine's signed 64-bit gas value clamps negatives to zero
and keeps non-negatives (`i64_to_u64_gas g = max g 0`), and `transact` applies
this clamp to the reported gas used of both outcome variants. -/
theorem c5_gas_clamp :
    (∀ g : Int, -(2 ^ 63) ≤ g → g < 2 ^ 63 →
      (i64_to_u64_gas g : Int) = max g 0) ∧
    (∀ (E : Type) (eng : Engine) (db : DB E) (tx : TxEnv) (r : ResultAndState)
        (tr : List Event), transact eng db tx = some (.ok r, tr) →
      resultGasUsed r.result = i64_to_u64_gas eng.gas_used) := by
  constructor
  · intro g _ _
    exact Int.toNat_of_nonneg (le_max_right g 0)
  · intro E eng db tx r tr h
    obtain ⟨target, bytecode, logs, t1, t2, t3, t4, pushes,
      _, _, _, _, _, _, _, _, hr, _⟩ := transact_ok_inv h
    rw [hr]
    cases hs : eng.is_success <;> simp [hs, resultGasUsed]

/-- Witness for C5: a run reporting gas_used = -5 yields outcome gas 0. -/
theorem c5_gas_clamp_witness :
    (i64_to_u64_gas (-5) : Int) = max (-5) 0 ∧
    ∃ r tr, transact engW dbW txW = some (.ok r, tr) ∧
      resultGasUsed r.result = i64_to_u64_gas engW.gas_used := by
  refine ⟨c5_gas_clamp.1 (-5) (by norm_num) (by norm_num), ?_⟩
  exact ⟨_, _, rfl, c5_gas_clamp.2 Unit engW dbW txW _ _ rfl⟩

/-- C3: every successful `transact` run pre-syncs exactly storage slots 0-9 of
the target — one ledger read followed by one engine storage push per slot, in
increasing slot order — before the bytecode/context setup calls, and performs
no other storage reads or pushes at any point (no lazy loading during
execution). -/
theorem c3_presync_window {E : Type} (eng : Engine) (db : DB E) (tx : TxEnv)
    (r : ResultAndState) (tr : List Event)
    (h : transact eng db tx = some (.ok r, tr)) :
    ∃ target bytecode pre post,
      (resolveTarget db tx).1 = .ok (target, bytecode) ∧
      tr = pre ++ post ∧
      post.head? = some (.setBytecode bytecode) ∧
      pre.filter isStorageEvent = (List.range 10).flatMap (slotEvents db target) ∧
      post.filter isStorageEvent = [] := by
  obtain ⟨target, bytecode, logs, t1, t2, t3, t4, pushes,
    h1, h2, h3, h4, _, _, _, _, _, htr⟩ := transact_ok_inv h
  have hw : sync_storage_slots_to_ffi eng db false target commonSlots =
      syncSlotsGo eng db target commonSlots := rfl
  rw [hw] at h4
  have hsteps := syncSlotsGo_ok_of_result eng db target commonSlots (by rw [h4])
  have hcomp := syncSlotsGo_ok eng db target commonSlots hsteps
  rw [h4] at hcomp
  have ht4 : t4 = commonSlots.flatMap (slotEvents db target) := by
    simpa using congrArg (fun p => p.2.1) hcomp
  have hf1 : t1.filter isStorageEvent = [] := by
    have := resolveTarget_storage_filter db tx
    rw [h1] at this
    simpa using this
  have hf2 : t2.filter isStorageEvent = [] := by
    have := sync_account_storage_filter eng db false tx.caller
    rw [h2] at this
    simpa using this
  have hf3 : t3.filter isStorageEvent = [] := by
    have := sync_account_storage_filter eng db false target
    rw [h3] at this
    simpa using this
  have hf4 : t4.filter isStorageEvent = t4 := by
    rw [ht4]
    exact slotEvents_filter db target commonSlots
  have hcs : commonSlots = List.range 10 := by decide
  refine ⟨target, bytecode, t1 ++ t2 ++ t3 ++ t4,
    [.setBytecode bytecode,
     .setExecutionContext tx.gas_limit tx.caller target tx.value tx.data,
     .setBlockchainContext, .execute], ?_, ?_, ?_, ?_, ?_⟩
  · rw [h1]
  · exact htr
  · rfl
  · rw [List.filter_append, List.filter_append, List.filter_append,
      hf1, hf2, hf3, hf4, ht4, hcs]
    simp
  · simp [isStorageEvent]

/-- Witness for C3 on a concrete successful run. -/
theorem c3_presync_window_witness :
    ∃ r tr, transact engW dbW txW = some (.ok r, tr) ∧
      ∃ target bytecode pre post,
        (resolveTarget dbW txW).1 = .ok (target, bytecode) ∧
        tr = pre ++ post ∧
        post.head? = some (.setBytecode bytecode) ∧
        pre.filter isStorageEvent =
          (List.range 10).flatMap (slotEvents dbW target) ∧
        post.filter isStorageEvent = [] :=
  ⟨_, _, rfl, c3_presync_window engW dbW txW _ _ rfl⟩

/-- C9: a create transaction uses the all-zero address as the target — the
adapter resolves the target to address 0 with the transaction data as code
(deriving nothing from caller or nonce), syncs the zero address's account and
its slots 0-9, and passes address 0 as the execution-context target. -/
theorem c9_create_targets_zero_address {E : Type} (eng : Engine) (db : DB E)
    (tx : TxEnv) (r : ResultAndState) (tr : List Event)
    (hk : tx.kind = .Create)
    (h : transact eng db tx = some (.ok r, tr)) :
    (resolveTarget db tx).1 = .ok (0, tx.data) ∧
    Event.dbBasic 0 ∈ tr ∧
    tr.filter isStorageEvent = (List.range 10).flatMap (slotEvents db 0) ∧
    Event.setBytecode tx.data ∈ tr ∧
    Event.setExecutionContext tx.gas_limit tx.caller 0 tx.value tx.data ∈ tr := by
  obtain ⟨target, bytecode, logs, t1, t2, t3, t4, pushes,
    h1, h2, h3, h4, _, _, _, _, _, htr⟩ := transact_ok_inv h
  have hres : resolveTarget db tx = (.ok (0, tx.data), []) := by
    simp [resolveTarget, hk]
  rw [hres] at h1
  simp only [Prod.mk.injEq, Except.ok.injEq] at h1
  obtain ⟨⟨htgt, hbc⟩, ht1⟩ := h1
  subst htgt
  subst hbc
  subst ht1
  have hw : sync_storage_slots_to_ffi eng db false 0 commonSlots =
      syncSlotsGo eng db 0 commonSlots := rfl
  rw [hw] at h4
  have hsteps := syncSlotsGo_ok_of_result eng db 0 commonSlots (by rw [h4])
  have hcomp := syncSlotsGo_ok eng db 0 commonSlots hsteps
  rw [h4] at hcomp
  have ht4 : t4 = commonSlots.flatMap (slotEvents db 0) := by
    simpa using congrArg (fun p => p.2.1) hcomp
  have hf2 : t2.filter isStorageEvent = [] := by
    have := sync_account_storage_filter eng db false tx.caller
    rw [h2] at this
    simpa using this
  have hf3 : t3.filter isStorageEvent = [] := by
    have := sync_account_storage_filter eng db false 0
    rw [h3] at this
    simpa using this
  have hf4 : t4.filter isStorageEvent = t4 := by
    rw [ht4]
    exact slotEvents_filter db 0 commonSlots
  have hmem3 : Event.dbBasic 0 ∈ t3 := by
    have := sync_account_dbBasic_mem eng db 0
    rw [h3] at this
    simpa using this
  have hcs : commonSlots = List.range 10 := by decide
  refine ⟨by rw [hres], ?_, ?_, ?_, ?_⟩
  · rw [htr]
    simp [hmem3]
  · rw [htr]
    rw [show ([] : List Event) ++ t2 ++ t3 ++ t4 ++
        [Event.setBytecode tx.data,
         Event.setExecutionContext tx.gas_limit tx.caller 0 tx.value tx.data,
         Event.setBlockchainContext, Event.execute] =
      t2 ++ t3 ++ t4 ++
        [Event.setBytecode tx.data,
         Event.setExecutionContext tx.gas_limit tx.caller 0 tx.value tx.data,
         Event.setBlockchainContext, Event.execute] from by simp]
    rw [List.filter_append, List.filter_append, List.filter_append,
      hf2, hf3, hf4, ht4, hcs]
    simp [isStorageEvent]
  · rw [htr]
    simp
  · rw [htr]
    simp

/-- Witness for C9 on a concrete create transaction. -/
theorem c9_create_targets_zero_address_witness :
    ∃ r tr,
      transact engW dbW
        { caller := 1, kind := .Create, value := 0, data := [0x60, 0x01],
          gas_limit := 100000 } = some (.ok r, tr) ∧
      (resolveTarget dbW
        { caller := 1, kind := .Create, value := 0, data := [0x60, 0x01],
          gas_limit := 100000 }).1 = .ok (0, [0x60, 0x01]) ∧
      Event.dbBasic 0 ∈ tr ∧
      tr.filter isStorageEvent = (List.range 10).flatMap (slotEvents dbW 0) ∧
      Event.setBytecode [0x60, 0x01] ∈ tr ∧
      Event.setExecutionContext 100000 1 0 0 [0x60, 0x01] ∈ tr :=
  ⟨_, _, rfl, c9_create_targets_zero_address engW dbW _ _ _ rfl rfl⟩

/-- C10: log extraction uses fixed-size buffers — every decoded log's data has
length min(reported, 4096), so at most 4096 bytes, and a reported length of
4096 or more yields the whole 4096-byte buffer unshortened (silent
truncation); the 32-byte-step topic copy out of the 128-byte topic buffer is
in bounds exactly when the engine reports at most 4 topics, and a larger
count makes the extraction index out of bounds; hence every log in a
returned success outcome carries at most 4096 data bytes. -/
theorem c10_log_buffer_bounds :
    (∀ (raw : RawLog) (l : Log), decodeLog raw = some l →
      l.data.length = min raw.dataLen 4096) ∧
    (∀ (raw : RawLog) (l : Log), decodeLog raw = some l → 4096 ≤ raw.dataLen →
      l.data = bufferize 4096 raw.dataBuf) ∧
    (∀ raw : RawLog, decodeLog raw = none ↔ 4 < raw.topicsCount) ∧
    (∀ (E : Type) (eng : Engine) (db : DB E) (tx : TxEnv) (r : ResultAndState)
        (tr : List Event) reason g gr logs out,
      transact eng db tx = some (.ok r, tr) →
      r.result = .Success reason g gr logs out →
      ∀ l ∈ logs, l.data.length ≤ 4096) := by
  have hdata : ∀ (raw : RawLog) (l : Log), decodeLog raw = some l →
      l.data = (bufferize 4096 raw.dataBuf).take raw.dataLen := by
    intro raw l h
    unfold decodeLog at h
    rcases ht : optTraverse
        (fun t => copySlice (bufferize 128 raw.topicsBuf) (t * 32) 32)
        (List.range raw.topicsCount) with _ | topics <;> rw [ht] at h
    · simp at h
    · simp only [Option.some.injEq] at h
      rw [← h]
  refine ⟨?_, ?_, ?_, ?_⟩
  · intro raw l h
    rw [hdata raw l h, List.length_take, bufferize_length]
  · intro raw l h hlen
    rw [hdata raw l h]
    exact List.take_of_length_le (by rw [bufferize_length]; exact hlen)
  · intro raw
    have hb := bufferize_length 128 raw.topicsBuf
    constructor
    · intro h
      unfold decodeLog at h
      rcases ht : optTraverse
          (fun t => copySlice (bufferize 128 raw.topicsBuf) (t * 32) 32)
          (List.range raw.topicsCount) with _ | topics <;> rw [ht] at h
      · obtain ⟨t, htmem, hnone⟩ := (optTraverse_eq_none_iff _ _).mp ht
        have h4 := (copySlice_topics_none_iff _ hb t).mp hnone
        have hlt := List.mem_range.mp htmem
        omega
      · simp at h
    · intro h4
      unfold decodeLog
      have ht : optTraverse
          (fun t => copySlice (bufferize 128 raw.topicsBuf) (t * 32) 32)
          (List.range raw.topicsCount) = none :=
        (optTraverse_eq_none_iff _ _).mpr
          ⟨4, List.mem_range.mpr (by omega),
           (copySlice_topics_none_iff _ hb 4).mpr (le_refl 4)⟩
      rw [ht]
  · intro E eng db tx r tr reason g gr logs out h hres
    obtain ⟨target, bytecode, logs0, t1, t2, t3, t4, pushes,
      _, _, _, _, _, _, _, hlogs, hr, _⟩ := transact_ok_inv h
    have hres2 : (if eng.is_success then
        ExecutionResult.Success .Return (i64_to_u64_gas eng.gas_used)
          eng.gas_refund logs0 (.Call eng.output)
      else ExecutionResult.Revert (i64_to_u64_gas eng.gas_used) eng.output) =
        .Success reason g gr logs out := by
      rw [hr] at hres
      exact hres
    cases hs : eng.is_success with
    | false => simp [hs] at hres2
    | true =>
      rw [hs, if_pos rfl] at hres2
      simp only [ExecutionResult.Success.injEq] at hres2
      obtain ⟨hq1, hq2, hq3, hlogs2, hq5⟩ := hres2
      subst hlogs2
      intro l hl
      obtain ⟨raw, hraw⟩ := extractLogsGo_mem hlogs l hl
      have := hdata raw l hraw
      rw [this, List.length_take, bufferize_length]
      omega

/-- Witness for C10: a log reporting 5000 data bytes decodes to exactly 4096
bytes; a log reporting 5 topics panics the extraction; a concrete successful
run's logs are all within the bound. -/
theorem c10_log_buffer_bounds_witness :
    (∀ l, decodeLog
        { addrBytes := []
          topicsCount := 0
          topicsBuf := []
          dataLen := 5000
          dataBuf := [] } = some l →
      l.data.length = min 5000 4096) ∧
    (decodeLog
        { addrBytes := []
          topicsCount := 5
          topicsBuf := []
          dataLen := 0
          dataBuf := [] } = none ↔ 4 < 5) ∧
    ∃ r tr, transact engW dbW txW = some (.ok r, tr) ∧
      (r.result = .Success .Return 0 3 [] (.Call [1, 2]) →
        ∀ l ∈ ([] : List Log), l.data.length ≤ 4096) := by
  refine ⟨fun l h => c10_log_buffer_bounds.1 _ l h, c10_log_buffer_bounds.2.2.1 _, ?_⟩
  exact ⟨_, _, rfl, fun hres =>
    c10_log_buffer_bounds.2.2.2 Unit engW dbW txW _ _ .Return 0 3 [] (.Call [1, 2])
      rfl hres⟩

/-- C1: in any `transact` run that reaches the execute call, a reported
execute failure yields the adapter-level ExecutionDidNotComplete error and no
outcome, while a reported completion yields Ok: when the completion status is
a failure the outcome is a revert carrying the clamped gas used and the
output (the revert variant carries no logs), and a success outcome carries
gas used, refund, extracted logs and output; in both cases the returned state
is the storage-change groups attached to accounts marked touched. -/
theorem c1_execute_outcome {E : Type} (eng : Engine) (db : DB E) (tx : TxEnv)
    (res : Except (EvmAdapterError E) ResultAndState) (tr : List Event)
    (h : transact eng db tx = some (res, tr)) (hex : Event.execute ∈ tr) :
    (eng.execute_ok = false →
      res = .error (.Ffi "evm_execute failed - execution did not complete")) ∧
    (eng.execute_ok = true →
      ∃ r, res = .ok r ∧
        (eng.is_success = true →
          ∃ logs, extractLogs eng = some logs ∧
            r.result = .Success .Return (i64_to_u64_gas eng.gas_used)
              eng.gas_refund logs (.Call eng.output)) ∧
        (eng.is_success = false →
          r.result = .Revert (i64_to_u64_gas eng.gas_used) eng.output) ∧
        r.state = buildState (extractChanges eng) ∧
        (∀ p ∈ r.state, p.2.status = AccountStatus.Touched)) := by
  unfold transact at h
  split at h
  · rename_i e t1 heq1
    have hni1 := resolveTarget_execute_not_mem db tx
    rw [heq1] at hni1
    simp only [Option.some.injEq, Prod.mk.injEq] at h
    rw [← h.2] at hex
    simp at hni1
    exact absurd hex hni1
  · rename_i target bytecode t1 heq1
    have hni1 := resolveTarget_execute_not_mem db tx
    rw [heq1] at hni1
    simp at hni1
    split at h
    · rename_i e t2 heq2
      have hni2 := sync_account_execute_not_mem eng db false tx.caller
      rw [heq2] at hni2
      simp at hni2
      simp only [Option.some.injEq, Prod.mk.injEq] at h
      rw [← h.2] at hex
      simp [List.mem_append, hni1, hni2] at hex
    · rename_i t2 heq2
      have hni2 := sync_account_execute_not_mem eng db false tx.caller
      rw [heq2] at hni2
      simp at hni2
      split at h
      · rename_i e t3 heq3
        have hni3 := sync_account_execute_not_mem eng db false target
        rw [heq3] at hni3
        simp at hni3
        simp only [Option.some.injEq, Prod.mk.injEq] at h
        rw [← h.2] at hex
        simp [List.mem_append, hni1, hni2, hni3] at hex
      · rename_i t3 heq3
        have hni3 := sync_account_execute_not_mem eng db false target
        rw [heq3] at hni3
        simp at hni3
        split at h
        · rename_i e t4 pushes heq4
          have hni4 := syncSlotsGo_execute_not_mem eng db target commonSlots
          have hw : sync_storage_slots_to_ffi eng db false target commonSlots =
              syncSlotsGo eng db target commonSlots := rfl
          rw [← hw, heq4] at hni4
          simp at hni4
          simp only [Option.some.injEq, Prod.mk.injEq] at h
          rw [← h.2] at hex
          simp [List.mem_append, hni1, hni2, hni3, hni4] at hex
        · rename_i t4 pushes heq4
          have hni4 := syncSlotsGo_execute_not_mem eng db target commonSlots
          have hw : sync_storage_slots_to_ffi eng db false target commonSlots =
              syncSlotsGo eng db target commonSlots := rfl
          rw [← hw, heq4] at hni4
          simp at hni4
          split at h
          · simp only [Option.some.injEq, Prod.mk.injEq] at h
            rw [← h.2] at hex
            simp [List.mem_append, hni1, hni2, hni3, hni4] at hex
          · split at h
            · simp only [Option.some.injEq, Prod.mk.injEq] at h
              rw [← h.2] at hex
              simp [List.mem_append, hni1, hni2, hni3, hni4] at hex
            · split at h
              · rename_i hc7
                simp only [Bool.not_eq_eq_eq_not, Bool.not_true] at hc7
                simp only [Option.some.injEq, Prod.mk.injEq] at h
                constructor
                · intro _
                  exact h.1.symm
                · intro htrue
                  rw [htrue] at hc7
                  simp at hc7
              · rename_i hc7
                simp only [Bool.not_eq_true, Bool.not_eq_eq_eq_not,
                  Bool.not_true, Bool.not_eq_false] at hc7
                split at h
                · simp at h
                · rename_i logs hlogs
                  simp only [Option.some.injEq, Prod.mk.injEq] at h
                  constructor
                  · intro hfalse
                    rw [hfalse] at hc7
                    simp at hc7
                  · intro _
                    refine ⟨_, h.1.symm, ?_, ?_, rfl, buildState_status _⟩
                    · intro hst
                      exact ⟨logs, hlogs, by simp [hst]⟩
                    · intro hsf
                      simp [hsf]

/-- Witness for C1 on a concrete run that reaches execute and completes
successfully. -/
theorem c1_execute_outcome_witness :
    ∃ res tr, transact engW dbW txW = some (res, tr) ∧ Event.execute ∈ tr ∧
      ((engW.execute_ok = false →
        res = .error (.Ffi "evm_execute failed - execution did not complete")) ∧
       (engW.execute_ok = true →
        ∃ r, res = .ok r ∧
          (engW.is_success = true →
            ∃ logs, extractLogs engW = some logs ∧
              r.result = .Success .Return (i64_to_u64_gas engW.gas_used)
                engW.gas_refund logs (.Call engW.output)) ∧
          (engW.is_success = false →
            r.result = .Revert (i64_to_u64_gas engW.gas_used) engW.output) ∧
          r.state = buildState (extractChanges engW) ∧
          (∀ p ∈ r.state, p.2.status = AccountStatus.Touched))) := by
  have hcomp : transact engW dbW txW =
      some (.ok { result := ExecutionResult.Success .Return 0 3 [] (.Call [1, 2])
                  state := [] }, trW) := by rfl
  have hex : Event.execute ∈ trW := by decide
  exact ⟨_, _, hcomp, hex, c1_execute_outcome engW dbW txW _ _ hcomp hex⟩

end GuillotineRs
